import Mathlib

/-!
Verification of the block-store and consensus-handshake core of the
`era-consensus` node, as a shallow embedding in Lean 4.

Embedded source files:
- `node/libs/storage/src/block_store/mod.rs` (`BlockStoreState`,
  `BlockStore::queue_block`, `BlockStore::block`, `BlockStoreRunner::run`);
- `node/actors/network/src/consensus/handshake/mod.rs`
  (`outbound`, `inbound`).

Machine integers (`u64` block numbers) are modelled as `Nat`; the block
numbers in play never approach `2^64`, and the source's `BlockNumber::next`
is a plain `+ 1`.  Cryptographic primitives (header hashing, message
signing and signature verification) are opaque deterministic operations in
the source; they are modelled as concrete injective encodings so that all
definitions are executable.  Blocking suspension points (`sync::wait_for`)
are modelled by a `pending` outcome that leaves the state untouched, which
matches the sequential semantics of the store under its single state lock.
-/

namespace EraConsensus

/-- BlockNumber::next, i.e. `self + 1`.  Block numbers (`u64` newtype in the
source) and block hashes are both modelled as `Nat`. -/
def BlockNumber.next (n : Nat) : Nat := n + 1

/-- validator::BlockHeader: number, optional parent hash, payload digest. -/
structure BlockHeader where
  number : Nat
  parent : Option Nat
  payload : Nat
deriving DecidableEq

/-- Encoding of an optional hash, used by the header digest below. -/
def encodeOption : Option Nat → Nat
  | none => 0
  | some x => x + 1

/-- BlockHeader::hash — an opaque digest computed deterministically from the
header; modelled as an injective pairing of the header fields. -/
def BlockHeader.hash (h : BlockHeader) : Nat :=
  Nat.pair h.number (Nat.pair (encodeOption h.parent) h.payload)

/-- validator::CommitQC; only the certified header (`message.proposal`)
matters for the store logic. -/
structure CommitQC where
  header : BlockHeader
deriving DecidableEq

/-- validator::FinalBlock: a payload plus the CommitQC justifying it.
In the source `FinalBlock::header()` is `justification.message.proposal`. -/
structure FinalBlock where
  payload : Nat
  justification : CommitQC
deriving DecidableEq

/-- FinalBlock::header — the header certified by the justification. -/
def FinalBlock.header (b : FinalBlock) : BlockHeader := b.justification.header

/-- FinalBlock::number — `self.header().number`. -/
def FinalBlock.number (b : FinalBlock) : Nat := (FinalBlock.header b).number

/-- storage::BlockStoreState: the observable contiguous range of blocks. -/
structure BlockStoreState where
  first : Nat
  last : Option CommitQC
deriving DecidableEq

/-- BlockStoreState::contains. -/
def BlockStoreState.contains (s : BlockStoreState) (number : Nat) : Bool :=
  match s.last with
  | none => false
  | some last => decide (s.first ≤ number) && decide (number ≤ last.header.number)

/-- BlockStoreState::next. -/
def BlockStoreState.next (s : BlockStoreState) : Nat :=
  match s.last with
  | some qc => BlockNumber.next qc.header.number
  | none => s.first

/-- storage::Inner — the state guarded by the BlockStore's watch lock:
the queued-frontier observable, the persisted frontier, and the
write-behind queue. -/
structure Inner where
  queued_state : BlockStoreState
  persisted_state : BlockStoreState
  queue : List FinalBlock
deriving DecidableEq

/-- Outcome of a `queue_block` call: `pending` models suspension in
`sync::wait_for` (predecessors missing), `ok` is `Ok(())`, the two error
constructors are the non-fatal verification errors returned to the caller. -/
inductive QueueRes where
  | pending
  | ok
  | errVerify
  | errParent
deriving DecidableEq

/-- The state update performed inside `send_if_modified` when a block is
accepted: advance `queued_state.last` to the block's justification and
push the block onto the queue. -/
def acceptState (inner : Inner) (block : FinalBlock) : Inner :=
  { inner with
    queued_state := { inner.queued_state with last := some block.justification }
    queue := inner.queue ++ [block] }

/-- The critical section of `queue_block`: `send_if_modified` re-checks
`queued_state.next() == number` under the lock (two calls may race on the
same number) and only then mutates.  The returned Bool is the `modified`
flag, i.e. whether the observable fired. -/
def queueBlockCommit (inner : Inner) (block : FinalBlock) : QueueRes × Bool × Inner :=
  if inner.queued_state.next = FinalBlock.number block then
    (QueueRes.ok, true, acceptState inner block)
  else (QueueRes.ok, false, inner)

/-- BlockStore::queue_block.  `verify` models `block.verify(&self.genesis)`
(an opaque total check, out of scope per the spec).  Mirrors the source:
wait until `queued_state.next() >= number`; duplicates return `Ok` with no
side effect; then verify; then the parent-hash check when a previous block
is available; then the locked conditional commit. -/
def queue_block (verify : FinalBlock → Bool) (inner : Inner) (block : FinalBlock) :
    QueueRes × Bool × Inner :=
  if inner.queued_state.next < FinalBlock.number block then
    (QueueRes.pending, false, inner)
  else if FinalBlock.number block < inner.queued_state.next then
    (QueueRes.ok, false, inner)
  else if verify block = false then
    (QueueRes.errVerify, false, inner)
  else
    match inner.queued_state.last with
    | some last =>
      if some (BlockHeader.hash last.header) ≠ (FinalBlock.header block).parent then
        (QueueRes.errParent, false, inner)
      else queueBlockCommit inner block
    | none => queueBlockCommit inner block

/-- One iteration of the BlockStoreRunner loop after `store_next_block`
returned: advance `persisted_state.last` to the front block's justification
and pop it.  With an empty queue the loop is blocked in `wait_for` and the
state is untouched. -/
def runnerStep (inner : Inner) : Inner :=
  match inner.queue with
  | [] => inner
  | b :: rest =>
    { inner with
      persisted_state := { inner.persisted_state with last := some b.justification }
      queue := rest }

/-- The Inner state built by BlockStore::new: both frontiers start at the
state read back from the persistent store (`first = genesis.fork.first_block`,
`last = persistent.last()`), with an empty queue. -/
def initInner (first : Nat) (last : Option CommitQC) : Inner :=
  { queued_state := { first := first, last := last }
    persisted_state := { first := first, last := last }
    queue := [] }

/-- BlockStore::block.  `pers` models `persistent.block(..)`, with `none`
standing for the fatal storage error (`.error ()` after wrapping).  The
snapshot of `inner` is held across the queue indexing, as in the source. -/
def getBlock (pers : Nat → Option FinalBlock) (inner : Inner)
    (number : Nat) : Except Unit (Option FinalBlock) :=
  if inner.queued_state.contains number = false then
    Except.ok none
  else if inner.persisted_state.contains number = false then
    Except.ok (inner.queue.get? (number - inner.persisted_state.next))
  else
    match pers number with
    | some b => Except.ok (some b)
    | none => Except.error ()

/-- An event acting on the Inner state: a `queue_block` call (its result
is discarded, only the state transition matters for traces) or a runner
iteration. -/
inductive Op where
  | queue (b : FinalBlock)
  | runner

/-- State transition of a single event. -/
def step (verify : FinalBlock → Bool) (inner : Inner) : Op → Inner
  | Op.queue b => (queue_block verify inner b).2.2
  | Op.runner => runnerStep inner

/-- State reached from `inner` after a trace of events. -/
def run (verify : FinalBlock → Bool) (inner : Inner) (ops : List Op) : Inner :=
  ops.foldl (step verify) inner

/-- The internal invariant of the store: the two frontiers are
`queue.length` apart, the queue holds consecutively numbered blocks
starting at the persisted frontier, and both states share `first`. -/
def Inv (inner : Inner) : Prop :=
  inner.persisted_state.next + inner.queue.length = inner.queued_state.next ∧
  (∀ i, i < inner.queue.length →
    Option.map FinalBlock.number (inner.queue.get? i) =
      some (inner.persisted_state.next + i)) ∧
  inner.persisted_state.first = inner.queued_state.first

instance instDecidableInv (inner : Inner) : Decidable (Inv inner) := by
  unfold Inv; infer_instance

/-! Handshake data model (`consensus/handshake/mod.rs`). -/

/-- node::SessionId — byte encoding of the noise stream id, modelled as a
number. -/
structure SessionId where
  id : Nat
deriving DecidableEq

/-- validator::GenesisHash. -/
structure GenesisHash where
  digest : Nat
deriving DecidableEq

/-- validator::PublicKey. -/
structure PublicKey where
  key : Nat
deriving DecidableEq

/-- validator::SecretKey; its public counterpart shares the scalar. -/
structure SecretKey where
  key : Nat
deriving DecidableEq

/-- SecretKey::public. -/
def SecretKey.public (sk : SecretKey) : PublicKey := { key := sk.key }

/-- The deterministic signature a key produces over a session id; signing
and verification are opaque pure primitives per the spec, modelled by this
encoding. -/
def sigOf (k : PublicKey) (m : SessionId) : Nat := Nat.pair k.key m.id

/-- validator::Signed of a node::SessionId: message, declared key,
signature. -/
structure SignedSessionId where
  msg : SessionId
  key : PublicKey
  sig : Nat
deriving DecidableEq

/-- SecretKey::sign_msg. -/
def SecretKey.sign_msg (sk : SecretKey) (m : SessionId) : SignedSessionId :=
  { msg := m, key := SecretKey.public sk, sig := sigOf (SecretKey.public sk) m }

/-- Signed::verify — checks the signature against the declared key. -/
def SignedSessionId.verify (s : SignedSessionId) : Bool :=
  decide (s.sig = sigOf s.key s.msg)

/-- The handshake message exchanged after e2e encryption is established. -/
structure Handshake where
  session_id : SignedSessionId
  genesis : GenesisHash
deriving DecidableEq

/-- handshake::Error, minus the transport-level `Stream` variant (the
checks below run on an already-received message). -/
inductive HandshakeError where
  | GenesisMismatch
  | SessionIdMismatch
  | PeerMismatch
  | Signature
deriving DecidableEq

/-- The check sequence of `outbound` on the received handshake `h`, given
the local genesis hash, the local session id `S = encode(stream.id())` and
the expected peer key.  Mirrors the source order:
genesis, session id, peer key, signature. -/
def outboundCheck (genesis : GenesisHash) (session_id : SessionId)
    (peer : PublicKey) (h : Handshake) : Except HandshakeError Unit :=
  if h.genesis ≠ genesis then Except.error HandshakeError.GenesisMismatch
  else if h.session_id.msg ≠ session_id then Except.error HandshakeError.SessionIdMismatch
  else if h.session_id.key ≠ peer then Except.error HandshakeError.PeerMismatch
  else if SignedSessionId.verify h.session_id = false then
    Except.error HandshakeError.Signature
  else Except.ok ()

/-- `inbound` on the received handshake `h`: genesis, session id and
signature checks in source order; on success it sends the reply handshake
(first component) and returns the peer's declared key (second component). -/
def inbound (me : SecretKey) (genesis : GenesisHash) (session_id : SessionId)
    (h : Handshake) : Except HandshakeError (Handshake × PublicKey) :=
  if h.genesis ≠ genesis then Except.error HandshakeError.GenesisMismatch
  else if h.session_id.msg ≠ session_id then Except.error HandshakeError.SessionIdMismatch
  else if SignedSessionId.verify h.session_id = false then
    Except.error HandshakeError.Signature
  else
    Except.ok ({ session_id := SecretKey.sign_msg me session_id, genesis := genesis },
      h.session_id.key)

/-! Concrete sample data used by the witness theorems. -/

/-- A verification oracle accepting every block. -/
def vTrue : FinalBlock → Bool := fun _ => true

/-- Sample header number 5 with no parent. -/
def hdr5 : BlockHeader := { number := 5, parent := none, payload := 0 }

/-- Sample QC certifying `hdr5`. -/
def qc5 : CommitQC := { header := hdr5 }

/-- Sample block number 5. -/
def blk5 : FinalBlock := { payload := 0, justification := qc5 }

/-- Sample block number 6 whose parent hash does not match `hdr5`. -/
def b6bad : FinalBlock :=
  { payload := 0
    justification := { header := { number := 6, parent := some 999, payload := 0 } } }

/-- Sample store state: `first = 5`, block 5 queued but not yet persisted. -/
def inner5q : Inner :=
  { queued_state := { first := 5, last := some qc5 }
    persisted_state := { first := 5, last := none }
    queue := [blk5] }

/-- Sample store state: `first = 5`, block 5 both queued and persisted. -/
def inner6 : Inner :=
  { queued_state := { first := 5, last := some qc5 }
    persisted_state := { first := 5, last := some qc5 }
    queue := [] }

/-- Sample empty store state with `first = 5`. -/
def innerEmpty5 : Inner := initInner 5 none

/-- Sample block number 5 carrying an arbitrary (dangling) parent hash. -/
def b5odd : FinalBlock :=
  { payload := 0
    justification := { header := { number := 5, parent := some 77, payload := 3 } } }

/-- Sample persistent-store read function holding no blocks. -/
def persNone : Nat → Option FinalBlock := fun _ => none

/-! Helper lemmas. -/

/-- Indexing a left-extended list below the left length reads the left list. -/
theorem get?_append_lt {α : Type} (l₁ l₂ : List α) (i : Nat) (h : i < l₁.length) :
    (l₁ ++ l₂).get? i = l₁.get? i := by
  induction l₁ generalizing i with
  | nil => simp at h
  | cons a t ih =>
    cases i with
    | zero => rfl
    | succ j => simpa using ih j (by simpa using h)

/-- Indexing one past a list after appending a singleton reads the new element. -/
theorem get?_append_length {α : Type} (l : List α) (a : α) :
    (l ++ [a]).get? l.length = some a := by
  induction l with
  | nil => rfl
  | cons b t ih => exact ih

/-- A duplicate or stale block number makes queue_block return `Ok` with no
state change and no observable notification. -/
theorem queue_block_stale (verify : FinalBlock → Bool) (inner : Inner) (b : FinalBlock)
    (h : FinalBlock.number b < inner.queued_state.next) :
    queue_block verify inner b = (QueueRes.ok, false, inner) := by
  have h1 : ¬ inner.queued_state.next < FinalBlock.number b := by omega
  unfold queue_block
  rw [if_neg h1, if_pos h]

/-- Every queue_block call either leaves the state untouched without firing
the observable, or (only when the block number is exactly the queued
frontier) accepts the block, firing once. -/
theorem queue_block_split (verify : FinalBlock → Bool) (inner : Inner) (b : FinalBlock) :
    ((queue_block verify inner b).2.1 = false ∧ (queue_block verify inner b).2.2 = inner) ∨
    (inner.queued_state.next = FinalBlock.number b ∧
      queue_block verify inner b = (QueueRes.ok, true, acceptState inner b)) := by
  by_cases h1 : inner.queued_state.next < FinalBlock.number b
  · left; simp [queue_block, h1]
  · by_cases h2 : FinalBlock.number b < inner.queued_state.next
    · left; simp [queue_block, h1, h2]
    · have hn : inner.queued_state.next = FinalBlock.number b := by omega
      by_cases h3 : verify b = false
      · left; simp [queue_block, h1, h2, h3]
      · cases hl : inner.queued_state.last with
        | none =>
          right
          exact ⟨hn, by simp [queue_block, h1, h2, h3, hl, queueBlockCommit, hn]⟩
        | some last =>
          by_cases h4 : some (BlockHeader.hash last.header) ≠ (FinalBlock.header b).parent
          · left; simp [queue_block, h1, h2, h3, hl, h4]
          · right
            exact ⟨hn, by simp [queue_block, h1, h2, h3, hl, h4, queueBlockCommit, hn]⟩

/-- Accepting a block advances the queued frontier to just past it. -/
theorem acceptState_queued_next (inner : Inner) (b : FinalBlock) :
    (acceptState inner b).queued_state.next = FinalBlock.number b + 1 := rfl

/-- If the observable fired, the call accepted the block at the queued
frontier. -/
theorem queue_block_fired (verify : FinalBlock → Bool) (inner : Inner) (b : FinalBlock)
    (r : QueueRes) (s2 : Inner)
    (h : queue_block verify inner b = (r, true, s2)) :
    inner.queued_state.next = FinalBlock.number b ∧ s2 = acceptState inner b := by
  rcases queue_block_split verify inner b with ⟨hf, _⟩ | ⟨hn, heq⟩
  · rw [h] at hf; simp at hf
  · rw [h] at heq
    have h2 : s2 = acceptState inner b := by
      have h3 := congrArg (fun p => p.2.2) heq
      simpa using h3
    exact ⟨hn, h2⟩

/-- C2: queue_block is idempotent: a call with a stale number (in particular
a repeat of an already-accepted block) returns success with no state change
and no observable transition, and per accepted block the observable fires
exactly once — the very call that fired leaves the block stale, so an
identical repeat call cannot fire again. -/
theorem C2_queue_block_idempotent (verify : FinalBlock → Bool) (inner : Inner)
    (b : FinalBlock) :
    (FinalBlock.number b < inner.queued_state.next →
      queue_block verify inner b = (QueueRes.ok, false, inner)) ∧
    (∀ r s2, queue_block verify inner b = (r, true, s2) →
      queue_block verify s2 b = (QueueRes.ok, false, s2)) := by
  refine ⟨queue_block_stale verify inner b, ?_⟩
  intro r s2 h
  obtain ⟨hn, hs⟩ := queue_block_fired verify inner b r s2 h
  subst hs
  exact queue_block_stale verify _ b (by rw [acceptState_queued_next]; omega)

/-- C3: when the block sits exactly at the queued frontier but its parent
hash does not match the hash of the current last header, queue_block
returns a non-fatal verification error (the genesis-verification error or
the parent-mismatch error) and the whole store state is unchanged. -/
theorem C3_parent_mismatch (verify : FinalBlock → Bool) (inner : Inner)
    (b : FinalBlock) (last : CommitQC)
    (hn : FinalBlock.number b = inner.queued_state.next)
    (hl : inner.queued_state.last = some last)
    (hp : (FinalBlock.header b).parent ≠ some (BlockHeader.hash last.header)) :
    ((queue_block verify inner b).1 = QueueRes.errVerify ∨
      (queue_block verify inner b).1 = QueueRes.errParent) ∧
    (queue_block verify inner b).2.1 = false ∧
    (queue_block verify inner b).2.2 = inner := by
  have h1 : ¬ inner.queued_state.next < FinalBlock.number b := by omega
  have h2 : ¬ FinalBlock.number b < inner.queued_state.next := by omega
  have h4 : some (BlockHeader.hash last.header) ≠ (FinalBlock.header b).parent :=
    fun hc => hp hc.symm
  by_cases h3 : verify b = false
  · simp [queue_block, h1, h2, h3]
  · simp [queue_block, h1, h2, h3, hl, h4]

/-- Witness for C3 at a concrete input: store holding block 5, candidate
block 6 with a dangling parent hash. -/
theorem C3_parent_mismatch_witness :
    ((queue_block vTrue inner6 b6bad).1 = QueueRes.errVerify ∨
      (queue_block vTrue inner6 b6bad).1 = QueueRes.errParent) ∧
    (queue_block vTrue inner6 b6bad).2.1 = false ∧
    (queue_block vTrue inner6 b6bad).2.2 = inner6 :=
  C3_parent_mismatch vTrue inner6 b6bad qc5 (by decide) (by decide) (by decide)

/-- C9: when the store is empty (`queued_state.last = None`) no parent-hash
check happens at all: any block at number `first` passing `verify` is
accepted, whatever its parent field holds. -/
theorem C9_first_block_any_parent (verify : FinalBlock → Bool) (inner : Inner)
    (b : FinalBlock)
    (hl : inner.queued_state.last = none)
    (hn : FinalBlock.number b = inner.queued_state.first)
    (hv : verify b = true) :
    queue_block verify inner b = (QueueRes.ok, true, acceptState inner b) := by
  have hnext : inner.queued_state.next = FinalBlock.number b := by
    unfold BlockStoreState.next
    rw [hl, hn]
  have h1 : ¬ inner.queued_state.next < FinalBlock.number b := by omega
  have h2 : ¬ FinalBlock.number b < inner.queued_state.next := by omega
  have h3 : ¬ verify b = false := by simp [hv]
  simp [queue_block, h1, h2, h3, hl, queueBlockCommit, hnext]

/-- Witness for C9 at a concrete input: empty store with `first = 5`
accepts a number-5 block whose parent is the dangling hash 77. -/
theorem C9_first_block_any_parent_witness :
    queue_block vTrue innerEmpty5 b5odd =
      (QueueRes.ok, true, acceptState innerEmpty5 b5odd) :=
  C9_first_block_any_parent vTrue innerEmpty5 b5odd (by decide) (by decide) (by decide)

/-- C8: the BlockStoreState accessors: `contains n` holds exactly when the
store is non-empty and `first ≤ n ≤ last.header.number`, and `next()` is
`last.header.number.next()` for a non-empty store and `first` otherwise. -/
theorem C8_state_accessors (s : BlockStoreState) (n : Nat) :
    (s.contains n = true ↔
      ∃ qc, s.last = some qc ∧ s.first ≤ n ∧ n ≤ qc.header.number) ∧
    s.next =
      Option.getD (Option.map (fun qc => BlockNumber.next qc.header.number) s.last)
        s.first := by
  cases hl : s.last with
  | none => simp [BlockStoreState.contains, BlockStoreState.next, hl]
  | some qc => simp [BlockStoreState.contains, BlockStoreState.next, hl]

/-- C6: outbound handshake check order and error taxonomy: genesis first
(GenesisMismatch), then session id (SessionIdMismatch), then expected peer
key (PeerMismatch), then the signature (Signature); success exactly when
all four checks pass. -/
theorem C6_outbound_taxonomy (G : GenesisHash) (S : SessionId) (P : PublicKey)
    (h : Handshake) :
    (outboundCheck G S P h = Except.error HandshakeError.GenesisMismatch ↔
      h.genesis ≠ G) ∧
    (outboundCheck G S P h = Except.error HandshakeError.SessionIdMismatch ↔
      h.genesis = G ∧ h.session_id.msg ≠ S) ∧
    (outboundCheck G S P h = Except.error HandshakeError.PeerMismatch ↔
      h.genesis = G ∧ h.session_id.msg = S ∧ h.session_id.key ≠ P) ∧
    (outboundCheck G S P h = Except.error HandshakeError.Signature ↔
      h.genesis = G ∧ h.session_id.msg = S ∧ h.session_id.key = P ∧
        SignedSessionId.verify h.session_id = false) ∧
    (outboundCheck G S P h = Except.ok () ↔
      h.genesis = G ∧ h.session_id.msg = S ∧ h.session_id.key = P ∧
        SignedSessionId.verify h.session_id = true) := by
  by_cases h1 : h.genesis = G <;>
    by_cases h2 : h.session_id.msg = S <;>
      by_cases h3 : h.session_id.key = P <;>
        by_cases h4 : SignedSessionId.verify h.session_id = true <;>
          simp_all [outboundCheck]

/-- C7: inbound handshake authentication: the genesis, session-id and
signature checks run in that order with their respective errors; the reply
handshake is produced (sent) only when all three pass, and the
authenticated identity returned is the declared key of the received signed
session id. -/
theorem C7_inbound_auth (me : SecretKey) (G : GenesisHash) (S : SessionId)
    (h : Handshake) :
    (inbound me G S h = Except.error HandshakeError.GenesisMismatch ↔
      h.genesis ≠ G) ∧
    (inbound me G S h = Except.error HandshakeError.SessionIdMismatch ↔
      h.genesis = G ∧ h.session_id.msg ≠ S) ∧
    (inbound me G S h = Except.error HandshakeError.Signature ↔
      h.genesis = G ∧ h.session_id.msg = S ∧
        SignedSessionId.verify h.session_id = false) ∧
    (∀ reply key, inbound me G S h = Except.ok (reply, key) →
      h.genesis = G ∧ h.session_id.msg = S ∧
        SignedSessionId.verify h.session_id = true ∧
        reply = { session_id := SecretKey.sign_msg me S, genesis := G } ∧
        key = h.session_id.key) ∧
    (h.genesis = G ∧ h.session_id.msg = S ∧
        SignedSessionId.verify h.session_id = true →
      inbound me G S h =
        Except.ok ({ session_id := SecretKey.sign_msg me S, genesis := G },
          h.session_id.key)) := by
  by_cases h1 : h.genesis = G <;>
    by_cases h2 : h.session_id.msg = S <;>
      by_cases h3 : SignedSessionId.verify h.session_id = true <;>
        simp_all [inbound]

/-- The invariant holds in the state constructed by BlockStore::new. -/
theorem inv_initInner (first : Nat) (last : Option CommitQC) :
    Inv (initInner first last) := by
  refine ⟨by simp [initInner], ?_, rfl⟩
  intro i hi
  simp [initInner] at hi

/-- queue_block preserves the invariant. -/
theorem inv_queue_block (verify : FinalBlock → Bool) (inner : Inner) (b : FinalBlock)
    (h : Inv inner) : Inv ((queue_block verify inner b).2.2) := by
  rcases queue_block_split verify inner b with ⟨-, hs⟩ | ⟨hn, heq⟩
  · rw [hs]; exact h
  · rw [heq]
    obtain ⟨hsum, hidx, hfst⟩ := h
    refine ⟨?_, ?_, hfst⟩
    · have hq : (acceptState inner b).queued_state.next = FinalBlock.number b + 1 :=
        acceptState_queued_next inner b
      simp only [acceptState, List.length_append, List.length_cons,
        List.length_nil] at hq ⊢
      omega
    · intro i hi
      simp only [acceptState, List.length_append, List.length_cons,
        List.length_nil] at hi ⊢
      by_cases hlt : i < inner.queue.length
      · rw [get?_append_lt _ _ i hlt]
        exact hidx i hlt
      · have hieq : i = inner.queue.length := by omega
        subst hieq
        rw [get?_append_length]
        simp only [Option.map_some', Option.some.injEq]
        omega

/-- The runner iteration preserves the invariant. -/
theorem inv_runnerStep (inner : Inner) (h : Inv inner) : Inv (runnerStep inner) := by
  obtain ⟨hsum, hidx, hfst⟩ := h
  cases hq : inner.queue with
  | nil => simp only [runnerStep, hq]; exact ⟨hsum, hidx, hfst⟩
  | cons b rest =>
    have h0 := hidx 0 (by rw [hq]; simp)
    rw [hq] at h0
    simp only [List.get?_cons_zero, Option.map_some', Option.some.injEq,
      Nat.add_zero] at h0
    have hnext : (BlockStoreState.mk inner.persisted_state.first
        (some b.justification)).next = FinalBlock.number b + 1 := rfl
    simp only [runnerStep, hq]
    rw [hq] at hsum
    simp only [List.length_cons] at hsum
    refine ⟨?_, ?_, hfst⟩
    · simp only [hnext]
      omega
    · intro i hi
      simp only at hi ⊢
      have hstep := hidx (i + 1) (by rw [hq]; simp only [List.length_cons]; omega)
      rw [hq] at hstep
      simp only [List.get?_cons_succ] at hstep
      rw [hstep, hnext]
      simp only [Option.some.injEq]
      omega

/-- Any single event preserves the invariant. -/
theorem inv_step (verify : FinalBlock → Bool) (inner : Inner) (op : Op)
    (h : Inv inner) : Inv (step verify inner op) := by
  cases op with
  | queue b => exact inv_queue_block verify inner b h
  | runner => exact inv_runnerStep inner h

/-- Any trace of events preserves the invariant. -/
theorem inv_run (verify : FinalBlock → Bool) (inner : Inner) (ops : List Op)
    (h : Inv inner) : Inv (run verify inner ops) := by
  induction ops generalizing inner with
  | nil => exact h
  | cons op rest ih => exact ih (step verify inner op) (inv_step verify inner op h)

/-- A single event never decreases either frontier (the runner case needs
the invariant, which pins the popped block's number to the persisted
frontier). -/
theorem step_mono (verify : FinalBlock → Bool) (inner : Inner) (op : Op)
    (h : Inv inner) :
    inner.queued_state.next ≤ (step verify inner op).queued_state.next ∧
    inner.persisted_state.next ≤ (step verify inner op).persisted_state.next := by
  obtain ⟨hsum, hidx, -⟩ := h
  cases op with
  | queue b =>
    rcases queue_block_split verify inner b with ⟨-, hs⟩ | ⟨hn, heq⟩
    · simp only [step, hs]; exact ⟨le_refl _, le_refl _⟩
    · simp only [step, heq]
      have hq : (acceptState inner b).queued_state.next = FinalBlock.number b + 1 :=
        acceptState_queued_next inner b
      constructor
      · rw [hq]; omega
      · exact le_refl _
  | runner =>
    cases hq : inner.queue with
    | nil => simp only [step, runnerStep, hq]; exact ⟨le_refl _, le_refl _⟩
    | cons b rest =>
      have h0 := hidx 0 (by rw [hq]; simp)
      rw [hq] at h0
      simp only [List.get?_cons_zero, Option.map_some', Option.some.injEq,
        Nat.add_zero] at h0
      have hnext : (BlockStoreState.mk inner.persisted_state.first
          (some b.justification)).next = FinalBlock.number b + 1 := rfl
      simp only [step, runnerStep, hq]
      refine ⟨le_refl _, ?_⟩
      simp only [hnext]
      omega

/-- A trace of events never decreases either frontier. -/
theorem run_mono (verify : FinalBlock → Bool) (inner : Inner) (ops : List Op)
    (h : Inv inner) :
    inner.queued_state.next ≤ (run verify inner ops).queued_state.next ∧
    inner.persisted_state.next ≤ (run verify inner ops).persisted_state.next := by
  induction ops generalizing inner with
  | nil => exact ⟨le_refl _, le_refl _⟩
  | cons op rest ih =>
    have h1 := step_mono verify inner op h
    have h2 := ih (step verify inner op) (inv_step verify inner op h)
    exact ⟨le_trans h1.1 h2.1, le_trans h1.2 h2.2⟩

/-- C1: in every state reachable from the BlockStore::new state by
queue_block calls and runner iterations, the persisted frontier plus the
queue length equals the queued frontier, and the queue holds consecutively
numbered blocks starting at the persisted frontier. -/
theorem C1_contiguity (verify : FinalBlock → Bool) (first : Nat)
    (last : Option CommitQC) (ops : List Op) :
    (run verify (initInner first last) ops).persisted_state.next
        + (run verify (initInner first last) ops).queue.length
      = (run verify (initInner first last) ops).queued_state.next ∧
    ∀ i, i < (run verify (initInner first last) ops).queue.length →
      Option.map FinalBlock.number ((run verify (initInner first last) ops).queue.get? i)
        = some ((run verify (initInner first last) ops).persisted_state.next + i) := by
  obtain ⟨h1, h2, -⟩ :=
    inv_run verify (initInner first last) ops (inv_initInner first last)
  exact ⟨h1, h2⟩

/-- C4: along every trace from the BlockStore::new state, the queued
frontier and the persisted frontier never decrease (extending the trace can
only raise them), and the persisted frontier never exceeds the queued
frontier. -/
theorem C4_frontier_monotone (verify : FinalBlock → Bool) (first : Nat)
    (last : Option CommitQC) (ops more : List Op) :
    (run verify (initInner first last) ops).queued_state.next
      ≤ (run verify (initInner first last) (ops ++ more)).queued_state.next ∧
    (run verify (initInner first last) ops).persisted_state.next
      ≤ (run verify (initInner first last) (ops ++ more)).persisted_state.next ∧
    (run verify (initInner first last) ops).persisted_state.next
      ≤ (run verify (initInner first last) ops).queued_state.next := by
  have hinv := inv_run verify (initInner first last) ops (inv_initInner first last)
  have happ : run verify (initInner first last) (ops ++ more)
      = run verify (run verify (initInner first last) ops) more := by
    simp [run, List.foldl_append]
  have hm := run_mono verify (run verify (initInner first last) ops) more hinv
  refine ⟨?_, ?_, ?_⟩
  · rw [happ]; exact hm.1
  · rw [happ]; exact hm.2
  · obtain ⟨h1, -, -⟩ := hinv; omega

/-- A contained number lies between `first` and just below `next()`. -/
theorem contains_bounds (s : BlockStoreState) (n : Nat) (h : s.contains n = true) :
    s.first ≤ n ∧ n < s.next := by
  cases hl : s.last with
  | none => simp [BlockStoreState.contains, hl] at h
  | some qc =>
    simp only [BlockStoreState.contains, hl, Bool.and_eq_true, decide_eq_true_eq] at h
    simp only [BlockStoreState.next, hl, BlockNumber.next]
    omega

/-- A number at or above `first` that is not contained lies at or above
`next()`. -/
theorem not_contains_ge (s : BlockStoreState) (n : Nat) (hf : s.first ≤ n)
    (h : s.contains n = false) : s.next ≤ n := by
  cases hl : s.last with
  | none => simp only [BlockStoreState.next, hl]; exact hf
  | some qc =>
    simp only [BlockStoreState.contains, hl, Bool.and_eq_false_iff,
      decide_eq_false_iff_not] at h
    simp only [BlockStoreState.next, hl, BlockNumber.next]
    rcases h with h | h <;> omega

/-- Under the invariant, a number that is queued but not yet persisted is
found in the queue at offset `n - persisted_state.next()`, and it is the
block with that very number. -/
theorem queue_lookup (inner : Inner) (n : Nat) (hInv : Inv inner)
    (hq : inner.queued_state.contains n = true)
    (hp : inner.persisted_state.contains n = false) :
    inner.persisted_state.next ≤ n ∧
    n - inner.persisted_state.next < inner.queue.length ∧
    ∃ b, inner.queue.get? (n - inner.persisted_state.next) = some b ∧
      FinalBlock.number b = n := by
  obtain ⟨hsum, hidx, hfst⟩ := hInv
  obtain ⟨hf, hlt⟩ := contains_bounds _ _ hq
  have hge : inner.persisted_state.next ≤ n := not_contains_ge _ _ (by omega) hp
  have hidxlt : n - inner.persisted_state.next < inner.queue.length := by omega
  have hmap := hidx (n - inner.persisted_state.next) hidxlt
  have harith : inner.persisted_state.next + (n - inner.persisted_state.next) = n := by
    omega
  rw [harith] at hmap
  cases hget : inner.queue.get? (n - inner.persisted_state.next) with
  | none => rw [hget] at hmap; simp at hmap
  | some b =>
    rw [hget] at hmap
    simp only [Option.map_some', Option.some.injEq] at hmap
    exact ⟨hge, hidxlt, b, rfl, hmap⟩

/-- C5: readback correctness of BlockStore::block under the store invariant:
a number outside `queued_state` reads back as `None`; a number inside
`queued_state` reads back (from the queue or, given a persistent store that
honours its contract, from persistence) as `Some` of the block with that
number. -/
theorem C5_readback (pers : Nat → Option FinalBlock) (inner : Inner) (n : Nat)
    (hInv : Inv inner)
    (hpers : ∀ m, inner.persisted_state.contains m = true →
      ∃ b, pers m = some b ∧ FinalBlock.number b = m) :
    (inner.queued_state.contains n = false →
      getBlock pers inner n = Except.ok none) ∧
    (inner.queued_state.contains n = true →
      ∃ b, getBlock pers inner n = Except.ok (some b) ∧ FinalBlock.number b = n) := by
  constructor
  · intro h
    simp [getBlock, h]
  · intro h
    by_cases hp : inner.persisted_state.contains n = true
    · obtain ⟨b, hb, hnum⟩ := hpers n hp
      refine ⟨b, ?_, hnum⟩
      simp [getBlock, h, hp, hb]
    · have hp2 : inner.persisted_state.contains n = false := by
        cases hc : inner.persisted_state.contains n
        · rfl
        · exact absurd hc hp
      obtain ⟨hge, hlt, b, hget, hnum⟩ := queue_lookup inner n ⟨hInv.1, hInv.2⟩ h hp2
      refine ⟨b, ?_, hnum⟩
      simp only [getBlock, h, hp2]
      rw [hget]
      simp

/-- Witness for C5 at a concrete input: store with `first = 5`, block 5
queued but not persisted, empty persistent store. -/
theorem C5_readback_witness :
    (inner5q.queued_state.contains 5 = false →
      getBlock persNone inner5q 5 = Except.ok none) ∧
    (inner5q.queued_state.contains 5 = true →
      ∃ b, getBlock persNone inner5q 5 = Except.ok (some b) ∧ FinalBlock.number b = 5) :=
  C5_readback persNone inner5q 5 (by decide)
    (fun m hm => by simp [inner5q, BlockStoreState.contains] at hm)

/-- C10: under the invariant, whenever a number is queued but not yet
persisted, the index computation `n - persisted_state.next()` of
BlockStore::block does not underflow, lands inside the queue, and the
in-queue branch returns that block (never None). -/
theorem C10_queue_index_safe (inner : Inner) (n : Nat)
    (hInv : Inv inner)
    (hq : inner.queued_state.contains n = true)
    (hp : inner.persisted_state.contains n = false) :
    inner.persisted_state.next ≤ n ∧
    n - inner.persisted_state.next < inner.queue.length ∧
    ∃ b, inner.queue.get? (n - inner.persisted_state.next) = some b ∧
      ∀ pers, getBlock pers inner n = Except.ok (some b) := by
  obtain ⟨hge, hlt, b, hget, -⟩ := queue_lookup inner n hInv hq hp
  refine ⟨hge, hlt, b, hget, ?_⟩
  intro pers
  simp only [getBlock, hq, hp]
  rw [hget]
  simp

/-- Witness for C10 at a concrete input: store with `first = 5`, block 5
queued but not persisted, looked up at number 5. -/
theorem C10_queue_index_safe_witness :
    inner5q.persisted_state.next ≤ 5 ∧
    5 - inner5q.persisted_state.next < inner5q.queue.length ∧
    ∃ b, inner5q.queue.get? (5 - inner5q.persisted_state.next) = some b ∧
      ∀ pers, getBlock pers inner5q 5 = Except.ok (some b) :=
  C10_queue_index_safe inner5q 5 (by decide) (by decide) (by decide)

end EraConsensus
